import Mathlib

/-!
Shallow embedding of the TSG Dynamic Form System frontend sources:
the `formService` API wrapper, the `SubmissionsList` component
(client-side search / sort / pagination pipeline), and the `DynamicForm`
component (schema-driven validation with the existing-email check).

Modelling conventions:
* JavaScript scalar values that flow through `form_data` are modelled by
  `JsVal` (absent/undefined, string, or integer number).  IEEE floating
  point is not needed by any claim; numbers are modelled as integers
  (submission ids, ages) and, in schema range checks, as rationals.
* JavaScript expressions that can throw a `TypeError`
  (e.g. `v.toLowerCase()` when `v` is a number) are modelled with
  `Option`: `none` is a thrown exception, `some x` a normal result.
* Case mapping (`toLowerCase`) is modelled by `String.toLower`
  (ASCII case mapping), and `trim` by `String.trim`; the claims only
  involve ASCII data.
* `Array.prototype.sort` with a comparator is stable (ES2019) and, for
  arrays of length at least two, evaluates the comparator - and hence the
  key coercions inside it - at least once per element, so a throwing key
  coercion propagates; for length 0 or 1 no comparator call happens.
  It is modelled by a stable insertion sort below.
* `new Date(s).getTime()` is modelled by storing the resulting epoch
  milliseconds directly in the `submitted_at` field.
-/

/-- ASCII lower-casing of one character: JavaScript `toLowerCase` on
the data the claims involve (the full Unicode mapping agrees with this
on ASCII). -/
def charToLower (c : Char) : Char :=
  if 'A' ≤ c && c ≤ 'Z' then Char.ofNat (c.toNat + 32) else c

/-- JavaScript `s.toLowerCase()`. -/
def strToLower (s : String) : String := ⟨s.data.map charToLower⟩

/-- JavaScript `s.trim()`: strip leading and trailing whitespace. -/
def strTrim (s : String) : String :=
  ⟨((s.data.dropWhile Char.isWhitespace).reverse.dropWhile Char.isWhitespace).reverse⟩

/-- Lexicographic comparison of character lists: JavaScript `<` on
strings (code-unit order, which agrees with code-point order on the
basic multilingual plane). -/
def charsLt : List Char → List Char → Bool
  | [], [] => false
  | [], _ :: _ => true
  | _ :: _, [] => false
  | c :: cs, d :: ds => c < d || (c = d && charsLt cs ds)

/-- JavaScript `a < b` on strings. -/
def strLt (a b : String) : Bool := charsLt a.data b.data

/-- A JavaScript scalar value as it occurs in `form_data` fields:
`undefined` (also covering a missing key), a string, or an (integer)
number. -/
inductive JsVal where
  | undef
  | str (s : String)
  | num (n : Int)
deriving DecidableEq

/-- JavaScript truthiness of a `JsVal`: `undefined`, `''` and `0` are
falsy, everything else truthy. -/
def truthy : JsVal → Bool
  | .undef => false
  | .str s => !s.isEmpty
  | .num n => n != 0

/-- JavaScript `String(v)` coercion. -/
def jsToString : JsVal → String
  | .undef => "undefined"
  | .str s => s
  | .num n => toString n

/-- JavaScript `v.toLowerCase()`: succeeds only on strings; on a number
or `undefined` it throws (`none`). -/
def jsToLowerE : JsVal → Option String
  | .str s => some (strToLower s)
  | _ => none

/-- Total variant of `jsToLowerE`, giving `""` on non-strings; used in
the pure projections that coincide with the throwing model on records
whose string fields really are strings (`wellFormed`). -/
def jsToLowerD : JsVal → String
  | .str s => strToLower s
  | _ => ""

/-- JavaScript `v || d`. -/
def jsOr (v d : JsVal) : JsVal := if truthy v then v else d

/-- Does the character list start with the given pattern? -/
def charsStartWith : List Char → List Char → Bool
  | _, [] => true
  | [], _ :: _ => false
  | c :: cs, d :: ds => c = d && charsStartWith cs ds

/-- Does the character list contain the pattern as a contiguous run? -/
def charsContain (q : List Char) : List Char → Bool
  | [] => q.isEmpty
  | c :: cs => charsStartWith (c :: cs) q || charsContain q cs

/-- JavaScript `s.includes(q)`: `q` occurs in `s` as a contiguous
substring (the empty pattern always occurs). -/
def jsIncludes (s q : String) : Bool := charsContain q.toList s.toList

/-- The `form_data` payload as accessed by the list pipeline; the
components only ever read the `name`, `email`, `age` and `gender` keys,
each of which may be absent. -/
structure FormData where
  name : JsVal := .undef
  email : JsVal := .undef
  age : JsVal := .undef
  gender : JsVal := .undef
deriving DecidableEq

/-- A submission record as served by the backend: `id` (positive
integer), `submitted_at` (epoch milliseconds of the timestamp string)
and the optional `form_data` object. -/
structure Submission where
  id : Nat
  submitted_at : Int
  form_data : Option FormData
deriving DecidableEq

/-- A record is well formed when its `name`, `email` and `gender`
values (if any) are strings or absent - i.e. not numbers, which would
make `toLowerCase()` throw.  `age` may be any value: it only meets
`String(...)` and `parseInt`, which never throw. -/
def wellFormedVal : JsVal → Bool
  | .num _ => false
  | _ => true

def wellFormed (s : Submission) : Bool :=
  wellFormedVal (s.form_data.getD {}).name && wellFormedVal (s.form_data.getD {}).email &&
    wellFormedVal (s.form_data.getD {}).gender

/-- One guarded search clause `(v && v.toLowerCase().includes(query))`
of the `SubmissionsList` filter: falsy values short-circuit to `false`,
truthy non-strings throw. -/
def strClauseE (v : JsVal) (q : String) : Option Bool :=
  if truthy v then (jsToLowerE v).map (fun s => jsIncludes s q) else some false

/-- The record predicate of the search filter in `SubmissionsList`
(the `useEffect` at lines 228-242), applied to the already lowercased
query:

  return (
    (data.name && data.name.toLowerCase().includes(query)) ||
    (data.email && data.email.toLowerCase().includes(query)) ||
    (data.age && String(data.age).includes(query)) ||
    (data.gender && data.gender.toLowerCase().includes(query)) ||
    (String(sub.id).includes(query))
  );

`||` short-circuits, so a later throwing clause is not reached once an
earlier clause is truthy. -/
def matchesQueryE (q : String) (sub : Submission) : Option Bool := do
  let b1 ← strClauseE (sub.form_data.getD {}).name q
  if b1 then pure true else
  let b2 ← strClauseE (sub.form_data.getD {}).email q
  if b2 then pure true else
  if truthy (sub.form_data.getD {}).age && jsIncludes (jsToString (sub.form_data.getD {}).age) q then pure true else
  let b4 ← strClauseE (sub.form_data.getD {}).gender q
  if b4 then pure true else
  pure (jsIncludes (toString sub.id) q)

/-- Pure projection of `matchesQueryE`; coincides with it on well-formed
records (see `matchesQueryE_eq`). -/
def matchesQuery (q : String) (sub : Submission) : Bool :=
  (truthy (sub.form_data.getD {}).name && jsIncludes (jsToLowerD (sub.form_data.getD {}).name) q) ||
  (truthy (sub.form_data.getD {}).email && jsIncludes (jsToLowerD (sub.form_data.getD {}).email) q) ||
  (truthy (sub.form_data.getD {}).age && jsIncludes (jsToString (sub.form_data.getD {}).age) q) ||
  (truthy (sub.form_data.getD {}).gender && jsIncludes (jsToLowerD (sub.form_data.getD {}).gender) q) ||
  jsIncludes (toString sub.id) q

/-- `Array.prototype.filter` with a possibly-throwing predicate:
predicates run left to right and the first throw aborts the whole
call. -/
def filterE (p : α → Option Bool) : List α → Option (List α)
  | [] => some []
  | x :: xs => do
    let b ← p x
    let r ← filterE p xs
    pure (if b then x :: r else r)

/-- The search step of the `useEffect` pipeline: when the trimmed query
is non-empty the records are filtered against the lowercased (but not
trimmed) query, otherwise the list passes through unchanged. -/
def applySearchE (searchQuery : String) (subs : List Submission) : Option (List Submission) :=
  if !(strTrim searchQuery).isEmpty then
    filterE (matchesQueryE (strToLower searchQuery)) subs
  else some subs

theorem strClauseE_eq (v : JsVal) (q : String) (h : wellFormedVal v = true) :
    strClauseE v q = some (truthy v && jsIncludes (jsToLowerD v) q) := by
  cases v with
  | undef => rfl
  | str s =>
    by_cases hs : s.isEmpty <;>
      simp [strClauseE, truthy, jsToLowerE, jsToLowerD, hs]
  | num n => simp [wellFormedVal] at h

theorem matchesQueryE_eq (q : String) (sub : Submission) (h : wellFormed sub = true) :
    matchesQueryE q sub = some (matchesQuery q sub) := by
  unfold wellFormed at h
  simp only [Bool.and_eq_true] at h
  obtain ⟨⟨hn, he⟩, hg⟩ := h
  unfold matchesQueryE matchesQuery
  rw [strClauseE_eq _ _ hn, strClauseE_eq _ _ he, strClauseE_eq _ _ hg]
  simp only [Option.bind_eq_bind, Option.some_bind]
  by_cases h1 : truthy (sub.form_data.getD {}).name && jsIncludes (jsToLowerD (sub.form_data.getD {}).name) q <;>
    simp only [h1, if_true, if_false, Bool.true_or, Bool.false_or] <;>
  [skip;
   by_cases h2 : truthy (sub.form_data.getD {}).email && jsIncludes (jsToLowerD (sub.form_data.getD {}).email) q <;>
     simp only [h2, if_true, if_false, Bool.true_or, Bool.false_or] <;>
   [skip;
    by_cases h3 : truthy (sub.form_data.getD {}).age && jsIncludes (jsToString (sub.form_data.getD {}).age) q <;>
      simp only [h3, if_true, if_false, Bool.true_or, Bool.false_or] <;>
    [skip;
     by_cases h4 : truthy (sub.form_data.getD {}).gender && jsIncludes (jsToLowerD (sub.form_data.getD {}).gender) q <;>
       simp [h4]]]] <;> rfl

/-- JavaScript `parseInt` on a string: skip leading whitespace, read an
optional sign and then as many decimal digits as possible; no digit at
all gives `NaN` (`none`).  Trailing garbage is ignored. -/
def jsParseIntStr (s : String) : Option Int :=
  let cs := s.toList.dropWhile Char.isWhitespace
  let signAndRest : Int × List Char :=
    match cs with
    | '-' :: t => (-1, t)
    | '+' :: t => (1, t)
    | t => (1, t)
  let ds := signAndRest.2.takeWhile Char.isDigit
  if ds.isEmpty then none
  else some (signAndRest.1 * (ds.foldl (fun a c => a * 10 + (c.toNat - 48)) 0 : Nat))

/-- JavaScript `parseInt(v)` for a `form_data` value: numbers parse to
themselves, strings through `jsParseIntStr`, `undefined` to `NaN`
(`none`). -/
def jsParseIntVal : JsVal → Option Int
  | .num n => some n
  | .str s => jsParseIntStr s
  | .undef => none

/-- A comparator key of `sortSubmissions`: either a number (ids,
timestamps, parsed ages) or a string (lowercased name/email/gender).
For any fixed `sortBy` all records yield the same constructor. -/
inductive SortKey where
  | int (n : Int)
  | str (s : String)
deriving DecidableEq

/-- JavaScript `aValue < bValue` on the comparator keys.  Within one
sort invocation both keys always have the same constructor; on mixed
constructors JavaScript's coercing comparison of a number with a
non-numeric string yields `false`, as here. -/
def keyLt : SortKey → SortKey → Bool
  | .int a, .int b => a < b
  | .str a, .str b => strLt a b
  | _, _ => false

/-- JavaScript `aValue > bValue` (same as `bValue < aValue` for keys of
equal type). -/
def keyGt (a b : SortKey) : Bool := keyLt b a

/-- The comparator body of `SubmissionsList.sortSubmissions`
(lines 214-217): `-1`/`1`/`0` with the direction chosen by
`sortOrder === 'asc'`. -/
def compareKeys (sortOrder : String) (a b : SortKey) : Int :=
  if keyLt a b then (if sortOrder = "asc" then -1 else 1)
  else if keyGt a b then (if sortOrder = "asc" then 1 else -1)
  else 0

/-- Key extraction of `sortSubmissions` (the `switch` on `sortBy`,
lines 184-212), in the throwing model: `name`/`email`/`gender` compute
`(formData.x || '').toLowerCase()` - which throws on a truthy
non-string - `age` computes `parseInt(formData.age) || 0`, `id` and
`submitted_at` read the record fields, and any other `sortBy` falls
back to `id`. -/
def keyOfE (sortBy : String) (s : Submission) : Option SortKey :=
  match sortBy with
  | "id" => some (.int s.id)
  | "submitted_at" => some (.int s.submitted_at)
  | "name" => (jsToLowerE (jsOr (s.form_data.getD {}).name (.str ""))).map .str
  | "email" => (jsToLowerE (jsOr (s.form_data.getD {}).email (.str ""))).map .str
  | "age" => some (.int ((jsParseIntVal (s.form_data.getD {}).age).getD 0))
  | "gender" => (jsToLowerE (jsOr (s.form_data.getD {}).gender (.str ""))).map .str
  | _ => some (.int s.id)

/-- Pure projection of `keyOfE`; coincides with it on well-formed
records (see `keyOfE_eq`). -/
def keyOfD (sortBy : String) (s : Submission) : SortKey :=
  match sortBy with
  | "id" => .int s.id
  | "submitted_at" => .int s.submitted_at
  | "name" => .str (jsToLowerD (jsOr (s.form_data.getD {}).name (.str "")))
  | "email" => .str (jsToLowerD (jsOr (s.form_data.getD {}).email (.str "")))
  | "age" => .int ((jsParseIntVal (s.form_data.getD {}).age).getD 0)
  | "gender" => .str (jsToLowerD (jsOr (s.form_data.getD {}).gender (.str "")))
  | _ => .int s.id

/-- Insert an element into a list, in front of the first position whose
element does not compare strictly before it. -/
def insertBy (le : α → α → Bool) (a : α) : List α → List α
  | [] => [a]
  | b :: l => if le a b then a :: b :: l else b :: insertBy le a l

/-- Stable insertion sort: the model of `Array.prototype.sort` with a
consistent comparator (sorted output, ties in input order). -/
def isortBy (le : α → α → Bool) : List α → List α
  | [] => []
  | a :: l => insertBy le a (isortBy le l)

/-- Whether the comparator treats `a` as not-after `b`, i.e. the
comparator value is at most zero. -/
def cmpLe (sortOrder : String) (a b : SortKey × Submission) : Bool :=
  compareKeys sortOrder a.1 b.1 ≤ 0

/-- `SubmissionsList.sortSubmissions` in the throwing model: copy the
array and sort it with the comparator.  Arrays of length at most one
involve no comparator call; otherwise every record's key coercion runs
at least once, so a throwing coercion aborts the sort.  The sorted
output is the stable order of the records keyed by `keyOfE`. -/
def sortSubmissionsE (sortBy sortOrder : String) (data : List Submission) :
    Option (List Submission) :=
  if data.length ≤ 1 then some data
  else do
    let keyed ← data.mapM (fun s => (keyOfE sortBy s).map (fun k => (k, s)))
    some ((isortBy (cmpLe sortOrder) keyed).map Prod.snd)

/-- Pure projection of `sortSubmissionsE`; coincides with it on
well-formed records (see `sortSubmissionsE_eq`). -/
def sortPure (sortBy sortOrder : String) (data : List Submission) : List Submission :=
  (isortBy (cmpLe sortOrder) (data.map (fun s => (keyOfD sortBy s, s)))).map Prod.snd

/-- Default sort state of `SubmissionsList` (line 129). -/
def defaultSortBy : String := "submitted_at"

/-- Default sort order of `SubmissionsList` (line 130). -/
def defaultSortOrder : String := "desc"

/-- JavaScript `xs.slice(start, stop)` for `0 ≤ start ≤ stop`. -/
def jsSlice (xs : List α) (start stop : Nat) : List α := (xs.drop start).take (stop - start)

/-- The state the `useEffect` pipeline publishes:
`setFilteredSubmissions(paginatedResult)` and `setTotal(result.length)`. -/
structure PageResult where
  filteredSubmissions : List Submission
  total : Nat
deriving DecidableEq

/-- The full filter -> sort -> paginate pipeline of the `useEffect` at
lines 224-253: search filter, client-side sort, then
`result.slice(page * pageSize, page * pageSize + pageSize)`, with
`total` set to the length of the filtered (pre-pagination) result. -/
def applyPipelineE (submissions : List Submission) (searchQuery : String)
    (page pageSize : Nat) (sortBy sortOrder : String) : Option PageResult := do
  let result ← applySearchE searchQuery submissions
  let result ← sortSubmissionsE sortBy sortOrder result
  pure ⟨jsSlice result (page * pageSize) (page * pageSize + pageSize), result.length⟩

/-- Pure projection of `applySearchE`; coincides with it on well-formed
records (see `applySearchE_eq`). -/
def applySearch (searchQuery : String) (subs : List Submission) : List Submission :=
  if !(strTrim searchQuery).isEmpty then subs.filter (matchesQuery (strToLower searchQuery))
  else subs

/-- Pure projection of `applyPipelineE`; coincides with it on
well-formed records (see `applyPipelineE_eq`). -/
def applyPipeline (submissions : List Submission) (searchQuery : String)
    (page pageSize : Nat) (sortBy sortOrder : String) : PageResult :=
  ⟨jsSlice (sortPure sortBy sortOrder (applySearch searchQuery submissions))
      (page * pageSize) (page * pageSize + pageSize),
   (sortPure sortBy sortOrder (applySearch searchQuery submissions)).length⟩

theorem filterE_eq (p : α → Option Bool) (q : α → Bool) (l : List α)
    (h : ∀ x ∈ l, p x = some (q x)) : filterE p l = some (l.filter q) := by
  induction l with
  | nil => rfl
  | cons a t ih =>
    rw [filterE, h a (List.mem_cons_self a t),
      ih (fun x hx => h x (List.mem_cons_of_mem a hx))]
    cases hq : q a <;> simp [List.filter_cons, hq]

theorem applySearchE_eq (q : String) (subs : List Submission)
    (h : ∀ s ∈ subs, wellFormed s = true) :
    applySearchE q subs = some (applySearch q subs) := by
  unfold applySearchE applySearch
  cases hq : (strTrim q).isEmpty <;> simp only [hq, Bool.not_true, Bool.not_false]
  · simp only [if_pos]
    exact filterE_eq _ _ _ (fun x hx => matchesQueryE_eq (strToLower q) x (h x hx))
  · simp

theorem applySearch_subset (q : String) (subs : List Submission) (x : Submission)
    (hx : x ∈ applySearch q subs) : x ∈ subs := by
  unfold applySearch at hx
  split at hx
  · exact (List.mem_filter.mp hx).1
  · exact hx

theorem jsToLowerE_or (v : JsVal) (h : wellFormedVal v = true) :
    jsToLowerE (jsOr v (.str "")) = some (jsToLowerD (jsOr v (.str ""))) := by
  cases v with
  | undef => rfl
  | str s => by_cases hs : s.isEmpty <;> simp [jsOr, truthy, hs, jsToLowerE, jsToLowerD]
  | num n => simp [wellFormedVal] at h

theorem keyOfE_eq (sb : String) (s : Submission) (h : wellFormed s = true) :
    keyOfE sb s = some (keyOfD sb s) := by
  unfold wellFormed at h
  simp only [Bool.and_eq_true] at h
  obtain ⟨⟨hn, he⟩, hg⟩ := h
  by_cases h1 : sb = "id"
  · subst h1; rfl
  by_cases h2 : sb = "submitted_at"
  · subst h2; rfl
  by_cases h3 : sb = "name"
  · subst h3; simp [keyOfE, keyOfD, jsToLowerE_or _ hn]
  by_cases h4 : sb = "email"
  · subst h4; simp [keyOfE, keyOfD, jsToLowerE_or _ he]
  by_cases h5 : sb = "age"
  · subst h5; rfl
  by_cases h6 : sb = "gender"
  · subst h6; simp [keyOfE, keyOfD, jsToLowerE_or _ hg]
  simp [keyOfE, keyOfD, h1, h2, h3, h4, h5, h6]

theorem mapM_eq_some (f : α → Option β) (g : α → β) (l : List α)
    (h : ∀ x ∈ l, f x = some (g x)) : l.mapM f = some (l.map g) := by
  induction l with
  | nil => rfl
  | cons a t ih =>
    rw [List.mapM_cons, h a (List.mem_cons_self a t),
      ih (fun x hx => h x (List.mem_cons_of_mem a hx))]
    rfl

theorem sortSubmissionsE_eq (sb so : String) (l : List Submission)
    (h : ∀ s ∈ l, wellFormed s = true) :
    sortSubmissionsE sb so l = some (sortPure sb so l) := by
  unfold sortSubmissionsE sortPure
  by_cases hl : l.length ≤ 1
  · rw [if_pos hl]
    match l, hl with
    | [], _ => rfl
    | [a], _ => simp [isortBy, insertBy]
  · rw [if_neg hl,
      mapM_eq_some _ (fun s => (keyOfD sb s, s)) l
        (fun x hx => by rw [keyOfE_eq sb x (h x hx)]; rfl)]
    rfl

theorem applyPipelineE_eq (subs : List Submission) (q : String) (page pageSize : Nat)
    (sb so : String) (h : ∀ s ∈ subs, wellFormed s = true) :
    applyPipelineE subs q page pageSize sb so = some (applyPipeline subs q page pageSize sb so) := by
  unfold applyPipelineE applyPipeline
  rw [applySearchE_eq _ _ h]
  simp only [Option.bind_eq_bind, Option.some_bind]
  rw [sortSubmissionsE_eq _ _ _ (fun x hx => h x (applySearch_subset q subs x hx))]
  rfl

theorem insertBy_perm (le : α → α → Bool) (a : α) (l : List α) :
    (insertBy le a l).Perm (a :: l) := by
  induction l with
  | nil => simp [insertBy]
  | cons b t ih =>
    by_cases h : le a b = true
    · rw [insertBy, if_pos h]
    · rw [insertBy, if_neg h]
      exact (ih.cons b).trans (List.Perm.swap a b t)

theorem isortBy_perm (le : α → α → Bool) (l : List α) : (isortBy le l).Perm l := by
  induction l with
  | nil => rfl
  | cons a t ih => exact (insertBy_perm le a (isortBy le t)).trans (ih.cons a)

theorem insertBy_mem (le : α → α → Bool) (a : α) (l : List α) (x : α) :
    x ∈ insertBy le a l ↔ x = a ∨ x ∈ l := by
  rw [(insertBy_perm le a l).mem_iff]
  simp

theorem insertBy_pairwise (le : α → α → Bool) (P : α → Prop)
    (htot : ∀ x y, P x → P y → le x y = true ∨ le y x = true)
    (htrans : ∀ x y z, P x → P y → P z → le x y = true → le y z = true → le x z = true)
    (a : α) (ha : P a) :
    ∀ l : List α, (∀ x ∈ l, P x) → l.Pairwise (fun x y => le x y = true) →
      (insertBy le a l).Pairwise (fun x y => le x y = true) := by
  intro l
  induction l with
  | nil => intro _ _; simp [insertBy]
  | cons b t ih =>
    intro hl hs
    rcases List.pairwise_cons.mp hs with ⟨hb, ht⟩
    by_cases h : le a b = true
    · rw [insertBy, if_pos h]
      refine List.pairwise_cons.mpr ⟨?_, hs⟩
      intro x hx
      rcases List.mem_cons.mp hx with rfl | hx
      · exact h
      · exact htrans a b x ha (hl b (List.mem_cons_self b t))
          (hl x (List.mem_cons_of_mem b hx)) h (hb x hx)
    · rw [insertBy, if_neg h]
      refine List.pairwise_cons.mpr
        ⟨?_, ih (fun x hx => hl x (List.mem_cons_of_mem b hx)) ht⟩
      intro x hx
      rcases (insertBy_mem le a t x).mp hx with rfl | hx
      · rcases htot x b ha (hl b (List.mem_cons_self b t)) with h1 | h2
        · exact absurd h1 h
        · exact h2
      · exact hb x hx

theorem isortBy_pairwise (le : α → α → Bool) (P : α → Prop)
    (htot : ∀ x y, P x → P y → le x y = true ∨ le y x = true)
    (htrans : ∀ x y z, P x → P y → P z → le x y = true → le y z = true → le x z = true) :
    ∀ l : List α, (∀ x ∈ l, P x) →
      (isortBy le l).Pairwise (fun x y => le x y = true) := by
  intro l
  induction l with
  | nil => intro _; simp [isortBy]
  | cons a t ih =>
    intro hl
    rw [isortBy]
    refine insertBy_pairwise le P htot htrans a (hl a (List.mem_cons_self a t)) _ ?_
      (ih (fun x hx => hl x (List.mem_cons_of_mem a hx)))
    intro x hx
    exact hl x (List.mem_cons_of_mem a ((isortBy_perm le t).mem_iff.mp hx))

theorem insertBy_filter_pos (le : α → α → Bool) (p : α → Bool) (a : α) (l : List α)
    (hpa : p a = true) (hab : ∀ b, p b = true → le a b = true) :
    (insertBy le a l).filter p = a :: l.filter p := by
  induction l with
  | nil => simp [insertBy, hpa]
  | cons b t ih =>
    by_cases h : le a b = true
    · rw [insertBy, if_pos h]
      simp [List.filter_cons, hpa]
    · have hpb : p b = false := by
        cases hpb : p b
        · rfl
        · exact absurd (hab b hpb) h
      rw [insertBy, if_neg h]
      simp [List.filter_cons, hpb, ih]

theorem insertBy_filter_neg (le : α → α → Bool) (p : α → Bool) (a : α) (l : List α)
    (hpa : p a = false) :
    (insertBy le a l).filter p = l.filter p := by
  induction l with
  | nil => simp [insertBy, hpa]
  | cons b t ih =>
    by_cases h : le a b = true
    · rw [insertBy, if_pos h]
      simp [List.filter_cons, hpa]
    · rw [insertBy, if_neg h]
      simp [List.filter_cons, ih]

theorem isortBy_filter (le : α → α → Bool) (p : α → Bool)
    (hequiv : ∀ x y, p x = true → p y = true → le x y = true) :
    ∀ l : List α, (isortBy le l).filter p = l.filter p := by
  intro l
  induction l with
  | nil => rfl
  | cons a t ih =>
    cases hpa : p a
    · rw [isortBy, insertBy_filter_neg le p a _ hpa, ih, List.filter_cons, hpa]
      simp
    · rw [isortBy, insertBy_filter_pos le p a _ hpa (fun b hb => hequiv a b hpa hb), ih,
        List.filter_cons, hpa]
      simp

theorem filter_of_map (f : β → α) (p : α → Bool) (l : List β) :
    (l.map f).filter p = (l.filter (fun x => p (f x))).map f := by
  induction l with
  | nil => rfl
  | cons b t ih => cases h : p (f b) <;> simp [List.filter_cons, h, ih]

/-- Key-constructor discriminator: for a fixed `sortBy` every record's
key has the same constructor (`sortShape`). -/
def keyIsInt : SortKey → Bool
  | .int _ => true
  | .str _ => false

/-- The key constructor produced by a given `sortBy` value. -/
def sortShape (sortBy : String) : Bool :=
  match sortBy with
  | "name" => false
  | "email" => false
  | "gender" => false
  | _ => true

theorem keyOfD_shape (sb : String) (s : Submission) :
    keyIsInt (keyOfD sb s) = sortShape sb := by
  by_cases h1 : sb = "id"
  · subst h1; rfl
  by_cases h2 : sb = "submitted_at"
  · subst h2; rfl
  by_cases h3 : sb = "name"
  · subst h3; rfl
  by_cases h4 : sb = "email"
  · subst h4; rfl
  by_cases h5 : sb = "age"
  · subst h5; rfl
  by_cases h6 : sb = "gender"
  · subst h6; rfl
  simp [keyOfD, sortShape, keyIsInt, h1, h2, h3, h4, h5, h6]

theorem compareKeys_int_le (so : String) (x y : Int) :
    compareKeys so (.int x) (.int y) ≤ 0 ↔ (if so = "asc" then x ≤ y else y ≤ x) := by
  by_cases hso : so = "asc" <;>
    · simp only [compareKeys, keyLt, keyGt, hso, if_true, if_false, decide_eq_true_eq]
      split_ifs <;> simp_all <;> omega

theorem charsLt_irrefl : ∀ l, charsLt l l = false
  | [] => rfl
  | c :: cs => by simp [charsLt, charsLt_irrefl cs]

theorem charsLt_asymm : ∀ a b, charsLt a b = true → charsLt b a = false
  | [], [] => by simp [charsLt]
  | [], _ :: _ => fun _ => rfl
  | _ :: _, [] => by simp [charsLt]
  | c :: cs, d :: ds => by
    intro h
    simp only [charsLt, Bool.or_eq_true, Bool.and_eq_true, decide_eq_true_eq] at h
    rcases h with h1 | ⟨he2, hlt⟩
    · simp [charsLt, lt_asymm h1, ne_of_gt h1]
    · subst he2
      simp [charsLt, lt_irrefl, charsLt_asymm cs ds hlt]

theorem charsLt_conn : ∀ a b, charsLt a b = false → charsLt b a = false → a = b
  | [], [] => fun _ _ => rfl
  | [], _ :: _ => by simp [charsLt]
  | _ :: _, [] => by intro h1 h2; simp [charsLt] at h2
  | c :: cs, d :: ds => by
    intro h1 h2
    have hcd : ¬ c < d := by
      intro hlt
      rw [charsLt] at h1
      simp [hlt] at h1
    have hdc : ¬ d < c := by
      intro hlt
      rw [charsLt] at h2
      simp [hlt] at h2
    have he : c = d := le_antisymm (le_of_not_lt hdc) (le_of_not_lt hcd)
    subst he
    have hcs : charsLt cs ds = false := by
      rw [charsLt] at h1
      simpa [lt_irrefl] using h1
    have hds : charsLt ds cs = false := by
      rw [charsLt] at h2
      simpa [lt_irrefl] using h2
    rw [charsLt_conn cs ds hcs hds]

theorem charsLt_trans : ∀ a b c, charsLt a b = true → charsLt b c = true → charsLt a c = true
  | a, [], _ => by intro h1 _; cases a <;> simp [charsLt] at h1
  | _, _ :: _, [] => by intro _ h2; simp [charsLt] at h2
  | [], _ :: _, _ :: _ => by intro _ _; rfl
  | x :: xs, d :: ds, e :: es => by
    intro h1 h2
    simp only [charsLt, Bool.or_eq_true, Bool.and_eq_true, decide_eq_true_eq] at h1 h2 ⊢
    rcases h1 with h1 | ⟨rfl, h1⟩
    · rcases h2 with h2 | ⟨rfl, h2⟩
      · exact Or.inl (lt_trans h1 h2)
      · exact Or.inl h1
    · rcases h2 with h2 | ⟨rfl, h2⟩
      · exact Or.inl h2
      · exact Or.inr ⟨rfl, charsLt_trans xs ds es h1 h2⟩

theorem keyLt_irrefl (k : SortKey) : keyLt k k = false := by
  cases k with
  | int n => simp [keyLt]
  | str s => exact charsLt_irrefl s.data

theorem keyLt_asymm (a b : SortKey) (h : keyLt a b = true) : keyLt b a = false := by
  cases a with
  | int x =>
    cases b with
    | int y =>
      simp only [keyLt, decide_eq_true_eq] at h
      simp only [keyLt, decide_eq_false_iff_not]
      omega
    | str t => simp [keyLt] at h
  | str s =>
    cases b with
    | int y => simp [keyLt] at h
    | str t => exact charsLt_asymm s.data t.data h

theorem keyLt_conn (a b : SortKey) (hsh : keyIsInt a = keyIsInt b)
    (h1 : keyLt a b = false) (h2 : keyLt b a = false) : a = b := by
  cases a with
  | int x =>
    cases b with
    | int y =>
      simp only [keyLt, decide_eq_false_iff_not] at h1 h2
      have : x = y := by omega
      rw [this]
    | str t => simp [keyIsInt] at hsh
  | str s =>
    cases b with
    | int y => simp [keyIsInt] at hsh
    | str t =>
      have hd := charsLt_conn s.data t.data h1 h2
      cases s
      cases t
      simp_all

theorem keyLt_trans (a b c : SortKey) (h1 : keyLt a b = true) (h2 : keyLt b c = true) :
    keyLt a c = true := by
  cases a with
  | int x =>
    cases b with
    | int y =>
      cases c with
      | int z =>
        simp only [keyLt, decide_eq_true_eq] at h1 h2 ⊢
        omega
      | str u => simp [keyLt] at h2
    | str t => simp [keyLt] at h1
  | str s =>
    cases b with
    | int y => simp [keyLt] at h1
    | str t =>
      cases c with
      | int z => simp [keyLt] at h2
      | str u => exact charsLt_trans s.data t.data u.data h1 h2

theorem compareKeys_self (so : String) (k : SortKey) : compareKeys so k k = 0 := by
  simp [compareKeys, keyGt, keyLt_irrefl k]

theorem compareKeys_le_iff (so : String) (a b : SortKey) :
    compareKeys so a b ≤ 0 ↔ (if so = "asc" then keyLt b a else keyLt a b) = false := by
  unfold compareKeys keyGt
  by_cases hso : so = "asc" <;> simp only [hso, if_true, if_false]
  · cases hab : keyLt a b
    · cases hba : keyLt b a <;> simp [hba]
    · simp [keyLt_asymm a b hab]
  · cases hab : keyLt a b
    · cases hba : keyLt b a <;> simp [hba]
    · simp [hab]

theorem cmpLe_total (so : String) (a b : SortKey × Submission)
    (hsh : keyIsInt a.1 = keyIsInt b.1) :
    cmpLe so a b = true ∨ cmpLe so b a = true := by
  have _ := hsh
  unfold cmpLe
  simp only [decide_eq_true_eq, compareKeys_le_iff]
  by_cases hso : so = "asc" <;> simp only [hso, if_true, if_false]
  · cases hab : keyLt a.1 b.1
    · exact Or.inr rfl
    · exact Or.inl (keyLt_asymm _ _ hab)
  · cases hab : keyLt a.1 b.1
    · exact Or.inl rfl
    · exact Or.inr (keyLt_asymm _ _ hab)

theorem cmpLe_trans (so : String) (a b c : SortKey × Submission)
    (hab : keyIsInt a.1 = keyIsInt b.1) (hbc : keyIsInt b.1 = keyIsInt c.1)
    (h1 : cmpLe so a b = true) (h2 : cmpLe so b c = true) : cmpLe so a c = true := by
  have _ := hab
  unfold cmpLe at h1 h2 ⊢
  simp only [decide_eq_true_eq, compareKeys_le_iff] at h1 h2 ⊢
  by_cases hso : so = "asc" <;> simp only [hso, if_true, if_false] at h1 h2 ⊢
  · cases hca : keyLt c.1 a.1
    · rfl
    · exfalso
      cases hbc2 : keyLt b.1 c.1
      · have hbceq : b.1 = c.1 := keyLt_conn _ _ hbc hbc2 h2
        rw [← hbceq] at hca
        rw [h1] at hca
        simp at hca
      · have hba := keyLt_trans _ _ _ hbc2 hca
        rw [h1] at hba
        simp at hba
  · cases hca : keyLt a.1 c.1
    · rfl
    · exfalso
      cases hcb : keyLt c.1 b.1
      · have hbceq : b.1 = c.1 := keyLt_conn _ _ hbc h2 hcb
        rw [← hbceq] at hca
        rw [h1] at hca
        simp at hca
      · have hac := keyLt_trans _ _ _ hca hcb
        rw [h1] at hac
        simp at hac

theorem mem_keyed_fst (sb : String) (l : List Submission) (x : SortKey × Submission)
    (hx : x ∈ l.map (fun s => (keyOfD sb s, s))) : x.1 = keyOfD sb x.2 := by
  rcases List.mem_map.mp hx with ⟨s, _, rfl⟩
  rfl

theorem sortPure_perm (sb so : String) (l : List Submission) : (sortPure sb so l).Perm l := by
  unfold sortPure
  have h2 := (isortBy_perm (cmpLe so) (l.map (fun s => (keyOfD sb s, s)))).map Prod.snd
  simpa [List.map_map, Function.comp_def] using h2

theorem sortPure_pairwise (sb so : String) (l : List Submission) :
    (sortPure sb so l).Pairwise
      (fun a b => compareKeys so (keyOfD sb a) (keyOfD sb b) ≤ 0) := by
  unfold sortPure
  have hP : ∀ x ∈ l.map (fun s => (keyOfD sb s, s)),
      keyIsInt (Prod.fst x) = sortShape sb := by
    intro x hx
    rcases List.mem_map.mp hx with ⟨s, _, rfl⟩
    exact keyOfD_shape sb s
  have hpw := isortBy_pairwise (cmpLe so) (fun x => keyIsInt x.1 = sortShape sb)
    (fun x y hx hy => cmpLe_total so x y (hx.trans hy.symm))
    (fun x y z hx hy hz h1 h2 =>
      cmpLe_trans so x y z (hx.trans hy.symm) (hy.trans hz.symm) h1 h2)
    (l.map (fun s => (keyOfD sb s, s))) hP
  rw [List.pairwise_map]
  refine hpw.imp_of_mem ?_
  intro x y hx hy hR
  have hx1 : x.1 = keyOfD sb x.2 :=
    mem_keyed_fst sb l x ((isortBy_perm (cmpLe so) _).mem_iff.mp hx)
  have hy1 : y.1 = keyOfD sb y.2 :=
    mem_keyed_fst sb l y ((isortBy_perm (cmpLe so) _).mem_iff.mp hy)
  have hc : compareKeys so x.1 y.1 ≤ 0 := by simpa [cmpLe] using hR
  rw [hx1, hy1] at hc
  exact hc

theorem sortPure_stable (sb so : String) (l : List Submission) (k : SortKey) :
    (sortPure sb so l).filter (fun s => decide (keyOfD sb s = k)) =
      l.filter (fun s => decide (keyOfD sb s = k)) := by
  unfold sortPure
  simp only [filter_of_map]
  have hiso : ∀ x ∈ isortBy (cmpLe so) (l.map (fun s => (keyOfD sb s, s))),
      x.1 = keyOfD sb x.2 := by
    intro x hx
    exact mem_keyed_fst sb l x ((isortBy_perm (cmpLe so) _).mem_iff.mp hx)
  have e1 : (isortBy (cmpLe so) (l.map (fun s => (keyOfD sb s, s)))).filter
        (fun x => decide (keyOfD sb x.2 = k)) =
      (isortBy (cmpLe so) (l.map (fun s => (keyOfD sb s, s)))).filter
        (fun x => decide (x.1 = k)) :=
    List.filter_congr (fun x hx => by rw [hiso x hx])
  have e2 : (l.map (fun s => (keyOfD sb s, s))).filter (fun x => decide (x.1 = k)) =
      (l.map (fun s => (keyOfD sb s, s))).filter (fun x => decide (keyOfD sb x.2 = k)) :=
    List.filter_congr (fun x hx => by rw [mem_keyed_fst sb l x hx])
  rw [e1, isortBy_filter (cmpLe so) (fun x => decide (x.1 = k))
    (fun x y hx hy => by
      simp only [decide_eq_true_eq] at hx hy
      simp [cmpLe, hx, hy, compareKeys_self]), e2]
  simp [filter_of_map, List.map_map, Function.comp_def]

/-- JavaScript `v || d` on an optional numeric request option
(`undefined`, `null` and `0` are falsy). -/
def jsOrInt : Option Int → Int → Int
  | some n, d => if n = 0 then d else n
  | none, d => d

/-- The `skip` value `formService` appends to the query string:
`options.skip || 0` (both `getSubmissions`, line 33, and
`searchSubmissions`, line 58). -/
def requestSkip (skip : Option Int) : Int := jsOrInt skip 0

/-- The `limit` value `formService` appends to the query string:
`Math.min(options.limit || 50, 1000)` (`getSubmissions` line 34 and
`searchSubmissions` line 59). -/
def requestLimit (limit : Option Int) : Int := min (jsOrInt limit 50) 1000

/-- Numeric value of a list of decimal digits. -/
def decDigitsVal (ds : List Char) : Nat := ds.foldl (fun a c => a * 10 + (c.toNat - 48)) 0

/-- JavaScript `parseFloat` on a string, restricted to finite decimal
notation: the longest prefix of the form
`[+-]? digits [. digits] [(e|E) [+-]? digits]` after leading whitespace
is parsed exactly as a rational; no mantissa digit at all gives `NaN`
(`none`).  IEEE double rounding is not modelled; the schema range
checks involved in the claims use small integers only. -/
def jsParseFloatStr (s : String) : Option Rat :=
  let cs := s.toList.dropWhile Char.isWhitespace
  let signAndRest : Rat × List Char :=
    match cs with
    | '-' :: t => (-1, t)
    | '+' :: t => (1, t)
    | t => (1, t)
  let intDs := signAndRest.2.takeWhile Char.isDigit
  let cs2 := signAndRest.2.drop intDs.length
  let fracAndRest : List Char × List Char :=
    match cs2 with
    | '.' :: t => (t.takeWhile Char.isDigit, t.drop (t.takeWhile Char.isDigit).length)
    | t => ([], t)
  if intDs.isEmpty && fracAndRest.1.isEmpty then none
  else
    let mant : Rat :=
      (decDigitsVal intDs : Nat) + (decDigitsVal fracAndRest.1 : Nat) / ((10 : Rat) ^ fracAndRest.1.length)
    let expVal : Int :=
      match fracAndRest.2 with
      | e :: t =>
        if e = 'e' || e = 'E' then
          match t with
          | '-' :: u =>
            if (u.takeWhile Char.isDigit).isEmpty then 0
            else -(decDigitsVal (u.takeWhile Char.isDigit) : Int)
          | '+' :: u =>
            if (u.takeWhile Char.isDigit).isEmpty then 0
            else (decDigitsVal (u.takeWhile Char.isDigit) : Int)
          | u =>
            if (u.takeWhile Char.isDigit).isEmpty then 0
            else (decDigitsVal (u.takeWhile Char.isDigit) : Int)
        else 0
      | [] => 0
    some (signAndRest.1 * mant * (10 : Rat) ^ expVal)

/-- One field's schema entry, as consumed by `DynamicForm`:
`{ type, required, minLength?, maxLength?, min?, max?, options? }`. -/
structure FieldConfig where
  type : String := ""
  required : Bool := false
  minLength : Option Nat := none
  maxLength : Option Nat := none
  min : Option Rat := none
  max : Option Rat := none
  options : Option (List String) := none
deriving DecidableEq

/-- Split a character list at every occurrence of a separator
character (`String.split` on a one-character separator). -/
def splitChar (c : Char) : List Char → List (List Char)
  | [] => [[]]
  | d :: ds =>
    if d = c then [] :: splitChar c ds
    else
      match splitChar c ds with
      | [] => [[d]]
      | r :: rs => (d :: r) :: rs

/-- Character class `[^\s@]` of the email regex, lifted to a list of
characters (ASCII whitespace; no claim involves the exotic Unicode
space characters). -/
def noWsNoAt (l : List Char) : Bool := l.all (fun c => !c.isWhitespace && c != '@')

/-- The email regex of `validateForm`, anchored at both ends:
one or more non-whitespace-non-at characters, `@`, then a domain that
is non-empty, whitespace-free, at-free and can be split at some dot
with non-empty halves - equivalently, the string has exactly one `@`,
a non-empty local part, and a dot in the domain that is neither its
first nor its last character. -/
def emailRegexTest (s : String) : Bool :=
  match splitChar '@' s.data with
  | [p, rest] =>
    !p.isEmpty && noWsNoAt p && noWsNoAt rest &&
      (List.range rest.length).any
        (fun i => rest.getD i ' ' = '.' && i ≠ 0 && i ≠ rest.length - 1)
  | _ => false

/-- The date regex `\d corresponds to [0-9]` of `validateForm`:
exactly `DDDD-DD-DD` with decimal digits. -/
def dateRegexTest (s : String) : Bool :=
  match s.toList with
  | [a, b, c, d, h1, e, f, h2, g, h] =>
    a.isDigit && b.isDigit && c.isDigit && d.isDigit && h1 = '-' &&
      e.isDigit && f.isDigit && h2 = '-' && g.isDigit && h.isDigit
  | _ => false

/-- `value === '' || value === null || value === undefined` in
`validateForm`; absent, `null` and `undefined` form values are all
modelled by `none`. -/
def isEmptyVal : Option String → Bool
  | none => true
  | some v => v.isEmpty

/-- The duplicate-email error message pushed by `validateForm`. -/
def dupEmailMsg : String :=
  "⚠️ This email already exists in the system. Please use a different email."

/-- The per-field validation of `DynamicForm.validateForm`
(lines 564-632): the `required` check, the early return on empty
values, then the type-specific checks in source order.
`existingEmails` holds the values loaded by `loadExistingEmails`;
`includes` is JavaScript strict equality, here equality on `JsVal`. -/
def validateField (existingEmails : List JsVal) (fieldName : String) (cfg : FieldConfig)
    (value : Option String) : List String :=
  if isEmptyVal value then
    (if cfg.required && isEmptyVal value then [fieldName ++ " is required"] else [])
  else
    (if cfg.required && isEmptyVal value then [fieldName ++ " is required"] else []) ++
    (if cfg.type = "email" then
      (if !emailRegexTest (value.getD "") then ["Invalid email format"] else []) ++
      (if existingEmails.contains (.str (value.getD "")) then [dupEmailMsg] else [])
    else []) ++
    (if cfg.type = "string" || cfg.type = "text" then
      (match cfg.minLength with
       | some m =>
         if m ≠ 0 && (value.getD "").length < m then
           ["Must be at least " ++ toString m ++ " characters"]
         else []
       | none => []) ++
      (match cfg.maxLength with
       | some m =>
         if m ≠ 0 && (value.getD "").length > m then
           ["Must be at most " ++ toString m ++ " characters"]
         else []
       | none => [])
    else []) ++
    (if cfg.type = "number" then
      match jsParseFloatStr (value.getD "") with
      | none => ["Must be a valid number"]
      | some numValue =>
        (match cfg.min with
         | some m => if numValue < m then ["Must be at least " ++ toString m] else []
         | none => []) ++
        (match cfg.max with
         | some m => if numValue > m then ["Must be at most " ++ toString m] else []
         | none => [])
    else []) ++
    (if cfg.type = "date" then
      if !dateRegexTest (value.getD "") then ["Invalid date format (use YYYY-MM-DD)"] else []
    else []) ++
    (if cfg.type = "dropdown" then
      match cfg.options with
      | none => ["Invalid selection"]
      | some opts => if !opts.contains (value.getD "") then ["Invalid selection"] else []
    else [])

/-- `DynamicForm.validateForm`: iterate `Object.entries(schema)` in
order (JavaScript object keys are distinct), collect each field's error
list, and keep exactly the fields with at least one error
(`newErrors`); the source's boolean return value is this list being
empty. -/
def validateForm (existingEmails : List JsVal) (schema : List (String × FieldConfig))
    (formData : List (String × String)) : List (String × List String) :=
  (schema.map (fun fc =>
      (fc.1, validateField existingEmails fc.1 fc.2 (List.lookup fc.1 formData)))).filter
    (fun fe => !fe.2.isEmpty)

/-- The `DynamicForm` component state touched by `handleSubmit`. -/
structure FormState where
  formData : List (String × String)
  errors : List (String × List String)
  loading : Bool
  submitMessage : String
  submitError : String
  existingEmails : List JsVal
deriving DecidableEq

/-- The synchronous prefix of `DynamicForm.handleSubmit`
(lines 641-654): clear both submit messages, run `validateForm` (which
stores the fresh error map via `setErrors`), and either return without
any request (invalid) or set `loading` and issue the POST with the
current form data.  The asynchronous continuation after the response
is not needed by any claim and is not modelled. -/
def handleSubmit (schema : List (String × FieldConfig)) (st : FormState) :
    FormState × Option (List (String × String)) :=
  let newErrors := validateForm st.existingEmails schema st.formData
  if newErrors.isEmpty then
    ({ st with submitMessage := "", submitError := "", errors := newErrors, loading := true },
      some st.formData)
  else
    ({ st with submitMessage := "", submitError := "", errors := newErrors }, none)

/-- `[...new Set(xs)]` with an explicit seen-set accumulator: keep the
first occurrence of every value, in order. -/
def jsSetDedupAux (seen : List JsVal) : List JsVal → List JsVal
  | [] => []
  | x :: xs =>
    if seen.contains x then jsSetDedupAux seen xs
    else x :: jsSetDedupAux (x :: seen) xs

/-- `[...new Set(xs)]`: first occurrences, in order. -/
def jsSetDedup (l : List JsVal) : List JsVal := jsSetDedupAux [] l

/-- `DynamicForm.loadExistingEmails` (lines 528-538) applied to the
fetched submissions: `submissions.map(s => s.form_data.email)` - which
throws if some record lacks `form_data` - then drop falsy values and
de-duplicate with a `Set`. -/
def loadExistingEmails (subs : List Submission) : Option (List JsVal) := do
  let emails ← subs.mapM (fun s => s.form_data.map (fun fd => fd.email))
  some (jsSetDedup (emails.filter truthy))

/-- Case-insensitive substring containment, as the spec words it. -/
def ciContains (s q : String) : Bool := jsIncludes (strToLower s) (strToLower q)

/-- One field's contribution to the matcher exactly as claim C1 states
it: the field's value - a string, or a number rendered as a string -
contains the query as a case-insensitive substring; an absent field
contributes nothing. -/
def claimFieldContains (v : JsVal) (q : String) : Bool :=
  match v with
  | .undef => false
  | .str s => ciContains s q
  | .num n => ciContains (toString n) q

/-- The record matcher exactly as claim C1 states it: the id rendered
as a decimal string, `form_data.name`, `form_data.email`,
`form_data.age` rendered as a string, or `form_data.gender` contains
the query as a case-insensitive substring. -/
def claimC1Matches (query : String) (sub : Submission) : Bool :=
  ciContains (toString sub.id) query ||
  claimFieldContains (sub.form_data.getD {}).name query ||
  claimFieldContains (sub.form_data.getD {}).email query ||
  claimFieldContains (sub.form_data.getD {}).age query ||
  claimFieldContains (sub.form_data.getD {}).gender query

/-- The record matcher of the amended claim C1: the lowercased (but not
trimmed) query must occur in the lowercased name, email or gender when
that field is a truthy string, in `String(age)` (not lowercased) when
age is truthy - so an age equal to 0, an empty string, or a missing
field never matches on that field - or in the decimal id string. -/
def amendedStrFieldClause (v : JsVal) (q : String) : Bool :=
  match v with
  | .str s => !s.isEmpty && jsIncludes (strToLower s) q
  | _ => false

def amendedC1Matches (searchQuery : String) (sub : Submission) : Bool :=
  amendedStrFieldClause (sub.form_data.getD {}).name (strToLower searchQuery) ||
  amendedStrFieldClause (sub.form_data.getD {}).email (strToLower searchQuery) ||
  (truthy (sub.form_data.getD {}).age &&
    jsIncludes (jsToString (sub.form_data.getD {}).age) (strToLower searchQuery)) ||
  amendedStrFieldClause (sub.form_data.getD {}).gender (strToLower searchQuery) ||
  jsIncludes (toString sub.id) (strToLower searchQuery)

/-- A record whose age is the number 0. -/
def recAgeZero : Submission :=
  ⟨1, 0, some { name := .str "x", email := .str "x@x.x", age := .num 0, gender := .str "f" }⟩

/-- Well-formed records with distinct timestamps for the sort
evaluations. -/
def recT1 : Submission :=
  ⟨1, 20, some { name := .str "a", email := .str "a@a.aa", age := .num 30, gender := .str "male" }⟩

def recT2 : Submission :=
  ⟨2, 10, some { name := .str "b", email := .str "b@b.bb", age := .num 40, gender := .str "female" }⟩

def recT3 : Submission :=
  ⟨3, 30, some { name := .str "c", email := .str "c@c.cc", age := .num 50, gender := .str "other" }⟩

/-- Two records with the same (case-insensitive) name key. -/
def recBob1 : Submission := ⟨1, 0, some { name := .str "bob" }⟩

def recBob2 : Submission := ⟨2, 0, some { name := .str "Bob" }⟩

/-- A record whose name is a number: `toLowerCase` throws on it. -/
def recNumName : Submission := ⟨1, 0, some { name := .num 5 }⟩

theorem strFieldClause_eq (v : JsVal) (q : String) (h : wellFormedVal v = true) :
    (truthy v && jsIncludes (jsToLowerD v) q) = amendedStrFieldClause v q := by
  cases v with
  | undef => rfl
  | str s => rfl
  | num n => simp [wellFormedVal] at h

theorem matchesQuery_amended (q : String) (s : Submission) (h : wellFormed s = true) :
    matchesQuery (strToLower q) s = amendedC1Matches q s := by
  unfold wellFormed at h
  simp only [Bool.and_eq_true] at h
  unfold matchesQuery amendedC1Matches
  rw [strFieldClause_eq _ _ h.1.1, strFieldClause_eq _ _ h.1.2, strFieldClause_eq _ _ h.2]

/-- C1: the claim as stated fails on the code: the record `recAgeZero`
has age equal to the number 0, and with the non-empty query "0" the
claim's matcher accepts it (age rendered as "0" contains "0") while
Search excludes it - the truthiness guard `data.age &&` skips a zero
age, so the returned set is not exactly the claimed set. -/
theorem C1_counterexample :
    applySearchE "0" [recAgeZero] = some [] ∧
    claimC1Matches "0" recAgeZero = true ∧
    "0" ≠ "" := by decide

/-- C1 (amended): over records whose name/email/gender values are
strings or absent, Search with a query whose trim is non-empty returns
exactly the records matched by `amendedC1Matches` (truthy-guarded
fields, lowercased query, untrimmed), and with a whitespace-only or
empty query returns all records unfiltered. -/
theorem C1_amended (subs : List Submission) (q : String)
    (h : ∀ s ∈ subs, wellFormed s = true) :
    ((strTrim q).isEmpty = false →
      applySearchE q subs = some (subs.filter (amendedC1Matches q))) ∧
    ((strTrim q).isEmpty = true → applySearchE q subs = some subs) := by
  constructor
  · intro hq
    rw [applySearchE_eq q subs h]
    unfold applySearch
    rw [if_pos (by simp [hq])]
    rw [List.filter_congr (fun x hx => matchesQuery_amended q x (h x hx))]
  · intro hq
    unfold applySearchE
    rw [if_neg (by simp [hq])]

/-- C1 (witness): the amended theorem applied to a concrete record and
query. -/
theorem C1_witness :
    (∀ s ∈ [recT1], wellFormed s = true) ∧
    (((strTrim "A").isEmpty = false →
      applySearchE "A" [recT1] = some ([recT1].filter (amendedC1Matches "A"))) ∧
     ((strTrim "A").isEmpty = true → applySearchE "A" [recT1] = some [recT1])) :=
  ⟨by decide, C1_amended [recT1] "A" (by decide)⟩

/-- The schema entry used by the concrete email evaluations. -/
def emailCfg : FieldConfig := { type := "email", required := true }

/-- C2: the claim fails on the code: with "Ann@X.com" on record (and
loaded verbatim by `loadExistingEmails`), submitting "ann@x.com" -
equal to it up to case, and with no surrounding whitespace - is NOT
detected as a duplicate: `existingEmails.includes(value)` is an exact
string comparison, so `validateForm` reports no error at all. -/
theorem C2_counterexample :
    loadExistingEmails [⟨3, 0, some { email := .str "Ann@X.com" }⟩] =
      some [.str "Ann@X.com"] ∧
    validateField [.str "Ann@X.com"] "email" emailCfg (some "ann@x.com") = [] ∧
    validateForm [.str "Ann@X.com"] [("email", emailCfg)] [("email", "ann@x.com")] = [] ∧
    strToLower (strTrim "ann@x.com") = strToLower (strTrim "Ann@X.com") := by decide

/-- C2 (amended): the existing-email check is an exact, case- and
whitespace-sensitive string comparison: for a non-empty candidate on an
email-typed field, the duplicate error is reported iff the candidate
string occurs verbatim among the loaded email values. -/
theorem C2_amended (emails : List JsVal) (fieldName : String) (cfg : FieldConfig)
    (v : String) (hty : cfg.type = "email") (hv : v.isEmpty = false) :
    dupEmailMsg ∈ validateField emails fieldName cfg (some v) ↔
      emails.contains (.str v) = true := by
  have hev : isEmptyVal (some v) = false := by simp [isEmptyVal, hv]
  have hne : dupEmailMsg ≠ "Invalid email format" := by decide
  unfold validateField
  rw [if_neg (by simp [hev])]
  simp only [hev, hty, Bool.and_false, Option.getD_some, if_neg Bool.false_ne_true,
    if_pos (rfl : ("email" : String) = "email"),
    if_neg (show ¬((decide (("email" : String) = "string") ||
      decide (("email" : String) = "text")) = true) by decide),
    if_neg (show ¬(("email" : String) = "number") by decide),
    if_neg (show ¬(("email" : String) = "date") by decide),
    if_neg (show ¬(("email" : String) = "dropdown") by decide),
    List.append_nil, List.nil_append]
  by_cases hr : emailRegexTest v <;> by_cases hc : emails.contains (JsVal.str v) <;>
    simp [hr, hc, hne, List.mem_append]

/-- C2 (witness): the amended characterization applied to a concrete
exact match. -/
theorem C2_witness :
    emailCfg.type = "email" ∧ "b@c.de".isEmpty = false ∧
    (dupEmailMsg ∈ validateField [.str "b@c.de"] "email" emailCfg (some "b@c.de") ↔
      [JsVal.str "b@c.de"].contains (.str "b@c.de") = true) :=
  ⟨rfl, rfl, C2_amended [.str "b@c.de"] "email" emailCfg "b@c.de" rfl rfl⟩

/-- C3: the claim as stated fails on the code: with no sort explicitly
requested the component uses its defaults `sortBy = 'submitted_at'`,
`sortOrder = 'desc'`, and on three records whose timestamps are not
aligned with their ids the returned order has ids [3, 1, 2] - neither
ascending nor descending by id, so the default is not a stable order
by id. -/
theorem C3_counterexample :
    applyPipelineE [recT1, recT2, recT3] "" 0 10 defaultSortBy defaultSortOrder =
      some ⟨[recT3, recT1, recT2], 3⟩ ∧
    [recT3.id, recT1.id, recT2.id] = [3, 1, 2] ∧
    ([3, 1, 2] : List Nat) ≠ [1, 2, 3] ∧
    ([3, 1, 2] : List Nat) ≠ [3, 2, 1] := by decide

theorem jsSlice_sublist (xs : List α) (a b : Nat) : (jsSlice xs a b).Sublist xs :=
  (List.take_sublist _ _).trans (List.drop_sublist _ _)

/-- C3 (amended): when no sort is explicitly requested the component
uses its default sort state - `sortBy = 'submitted_at'`,
`sortOrder = 'desc'` - so the returned page is ordered by
`submitted_at` descending (ties keep their stable input order); by-id
ordering occurs only when explicitly selected. -/
theorem C3_amended (subs : List Submission) (q : String) (page pageSize : Nat)
    (h : ∀ s ∈ subs, wellFormed s = true) :
    ∃ res, applyPipelineE subs q page pageSize defaultSortBy defaultSortOrder = some res ∧
      res.filteredSubmissions.Pairwise (fun a b => b.submitted_at ≤ a.submitted_at) := by
  refine ⟨applyPipeline subs q page pageSize defaultSortBy defaultSortOrder,
    applyPipelineE_eq subs q page pageSize defaultSortBy defaultSortOrder h, ?_⟩
  have hp := sortPure_pairwise defaultSortBy defaultSortOrder (applySearch q subs)
  have hp2 : (sortPure defaultSortBy defaultSortOrder (applySearch q subs)).Pairwise
      (fun a b => b.submitted_at ≤ a.submitted_at) := by
    refine hp.imp ?_
    intro a b hab
    have hiff := (compareKeys_le_iff defaultSortOrder (keyOfD defaultSortBy a)
      (keyOfD defaultSortBy b)).mp hab
    rw [if_neg (by decide)] at hiff
    have hk : keyLt (.int a.submitted_at) (.int b.submitted_at) = false := hiff
    simpa [keyLt, not_lt] using hk
  exact hp2.sublist (jsSlice_sublist _ _ _)

/-- C3 (witness): the amended theorem applied to a concrete record
list. -/
theorem C3_witness :
    (∀ s ∈ [recT1, recT2], wellFormed s = true) ∧
    ∃ res, applyPipelineE [recT1, recT2] "" 0 10 defaultSortBy defaultSortOrder = some res ∧
      res.filteredSubmissions.Pairwise (fun a b => b.submitted_at ≤ a.submitted_at) :=
  ⟨by decide, C3_amended [recT1, recT2] "" 0 10 (by decide)⟩

theorem jsSlice_decompose (xs : List α) (a b : Nat) :
    xs.take a ++ jsSlice xs a b ++ (xs.drop a).drop (b - a) = xs := by
  unfold jsSlice
  rw [List.append_assoc, List.take_append_drop, List.take_append_drop]

/-- C4: skip and limit apply to the filtered result set, not the
pre-filter record set: the pipeline filters, sorts the matched records
(a permutation of them), and only then slices; the reported total is
the number of matched records before paging, and the returned page is
a contiguous slice of the sorted matched list. -/
theorem C4_filter_then_paginate (subs : List Submission) (q : String)
    (page pageSize : Nat) (sb so : String)
    (h : ∀ s ∈ subs, wellFormed s = true) :
    ∃ matched sorted res,
      applySearchE q subs = some matched ∧
      sortSubmissionsE sb so matched = some sorted ∧
      applyPipelineE subs q page pageSize sb so = some res ∧
      sorted.Perm matched ∧
      res.total = matched.length ∧
      res.filteredSubmissions = jsSlice sorted (page * pageSize) (page * pageSize + pageSize) ∧
      ∃ pre post, pre ++ res.filteredSubmissions ++ post = sorted := by
  have hm := applySearchE_eq q subs h
  have hwf : ∀ s ∈ applySearch q subs, wellFormed s = true :=
    fun s hs => h s (applySearch_subset q subs s hs)
  have hsrt := sortSubmissionsE_eq sb so (applySearch q subs) hwf
  refine ⟨applySearch q subs, sortPure sb so (applySearch q subs),
    applyPipeline subs q page pageSize sb so,
    hm, hsrt, applyPipelineE_eq subs q page pageSize sb so h,
    sortPure_perm sb so _, ?_, rfl, ?_⟩
  · exact (sortPure_perm sb so _).length_eq
  · exact ⟨_, _, jsSlice_decompose _ _ _⟩

/-- C4 (witness): the theorem applied to a concrete record list and
query. -/
theorem C4_witness :
    (∀ s ∈ [recT1, recT2, recT3], wellFormed s = true) ∧
    ∃ matched sorted res,
      applySearchE "b" [recT1, recT2, recT3] = some matched ∧
      sortSubmissionsE "name" "asc" matched = some sorted ∧
      applyPipelineE [recT1, recT2, recT3] "b" 0 2 "name" "asc" = some res ∧
      sorted.Perm matched ∧
      res.total = matched.length ∧
      res.filteredSubmissions = jsSlice sorted (0 * 2) (0 * 2 + 2) ∧
      ∃ pre post, pre ++ res.filteredSubmissions ++ post = sorted :=
  ⟨by decide, C4_filter_then_paginate [recT1, recT2, recT3] "b" 0 2 "name" "asc" (by decide)⟩

/-- C5: the claim fails on the code: the frontend service clamps the
limit but does not clamp a negative skip - `options.skip || 0` only
replaces falsy values, so a requested skip of -5 is sent through as
-5 rather than 0. -/
theorem C5_counterexample :
    requestSkip (some (-5)) = -5 ∧ ((-5 : Int) < 0) ∧ requestSkip (some (-5)) ≠ 0 := by decide

/-- C5 (amended): the effective limit is clamped to at most 1000 (any
requested limit above 1000 becomes 1000; an absent or zero limit
defaults to 50); the skip is NOT clamped: an absent or zero skip
becomes 0, and any nonzero skip - including a negative one - passes
through unchanged. -/
theorem C5_amended :
    (∀ limit : Option Int, requestLimit limit ≤ 1000) ∧
    (∀ n : Int, n > 1000 → requestLimit (some n) = 1000) ∧
    requestLimit none = 50 ∧ requestLimit (some 0) = 50 ∧
    requestSkip none = 0 ∧ requestSkip (some 0) = 0 ∧
    (∀ n : Int, n ≠ 0 → requestSkip (some n) = n) := by
  refine ⟨?_, ?_, rfl, rfl, rfl, rfl, ?_⟩
  · intro limit
    exact min_le_right _ _
  · intro n hn
    simp only [requestLimit, jsOrInt]
    rw [if_neg (by omega)]
    exact min_eq_right (by omega)
  · intro n hn
    simp only [requestSkip, jsOrInt]
    rw [if_neg hn]

/-- C5 (witness): the amended theorem applied at concrete limits and
skips. -/
theorem C5_witness :
    requestLimit (some 2000) ≤ 1000 ∧
    ((2000 : Int) > 1000 ∧ requestLimit (some 2000) = 1000) ∧
    ((-7 : Int) ≠ 0 ∧ requestSkip (some (-7)) = -7) :=
  ⟨C5_amended.1 (some 2000), ⟨by decide, C5_amended.2.1 2000 (by decide)⟩,
   ⟨by decide, C5_amended.2.2.2.2.2.2 (-7) (by decide)⟩⟩

/-- C6: the claim fails on the code: the comparator has no id
tie-break - it returns 0 on equal keys and the sort is stable - so two
records with the same (lowercased) name key come back in input order;
here the record with id 2 stays before the record with id 1, not id
ascending. -/
theorem C6_counterexample :
    sortSubmissionsE "name" "asc" [recBob2, recBob1] = some [recBob2, recBob1] ∧
    keyOfD "name" recBob2 = keyOfD "name" recBob1 ∧
    recBob1.id < recBob2.id ∧
    [recBob2.id, recBob1.id] ≠ [recBob1.id, recBob2.id] := by decide

/-- C6 (amended): the sort is a pure function, so two invocations with
the same inputs return the same results; the output is a permutation
of the input and, for every key value, the records carrying that key
appear in their original input order (stability) - ties are NOT broken
by id but by input position, which still makes the ordering fully
deterministic for a fixed input list. -/
theorem C6_amended (sb so : String) (l : List Submission)
    (h : ∀ s ∈ l, wellFormed s = true) :
    ∃ out, sortSubmissionsE sb so l = some out ∧ out.Perm l ∧
      (∀ k, out.filter (fun s => decide (keyOfD sb s = k)) =
        l.filter (fun s => decide (keyOfD sb s = k))) :=
  ⟨sortPure sb so l, sortSubmissionsE_eq sb so l h, sortPure_perm sb so l,
    fun k => sortPure_stable sb so l k⟩

/-- C6 (witness): the amended theorem applied to the concrete tied
records. -/
theorem C6_witness :
    (∀ s ∈ [recBob2, recBob1], wellFormed s = true) ∧
    ∃ out, sortSubmissionsE "name" "asc" [recBob2, recBob1] = some out ∧
      out.Perm [recBob2, recBob1] ∧
      (∀ k, out.filter (fun s => decide (keyOfD "name" s = k)) =
        [recBob2, recBob1].filter (fun s => decide (keyOfD "name" s = k))) :=
  ⟨by decide, C6_amended "name" "asc" [recBob2, recBob1] (by decide)⟩

theorem jsToLowerD_or_str (s : String) : jsToLowerD (jsOr (.str s) (.str "")) = strToLower s := by
  by_cases hs : s.isEmpty
  · rw [(String.isEmpty_iff s).mp hs]
    rfl
  · simp only [jsOr, truthy]
    rw [if_pos (by simp [hs])]
    rfl

/-- C7: the coercion rules of the in-memory multi-field sort: the age
key is `parseInt(age)`, defaulting to 0 on parse failure; the
name/email/gender keys are lowercased, so records whose field values
agree up to case compare equal (comparator 0); and the sorted output
is ordered by the coerced keys in the requested asc/desc direction
(for ascending order no later record's key is below an earlier one,
and symmetrically for descending). -/
theorem C7_sort_coercions (sb so : String) (l : List Submission)
    (h : ∀ s ∈ l, wellFormed s = true) :
    (∀ s : Submission, jsParseIntVal (s.form_data.getD {}).age = none →
      keyOfD "age" s = .int 0) ∧
    (∀ s : Submission, ∀ n : Int, jsParseIntVal (s.form_data.getD {}).age = some n →
      keyOfD "age" s = .int n) ∧
    (∀ a b : Submission, ∀ s t : String,
      (a.form_data.getD {}).name = .str s → (b.form_data.getD {}).name = .str t →
      strToLower s = strToLower t → compareKeys so (keyOfD "name" a) (keyOfD "name" b) = 0) ∧
    (∀ a b : Submission, ∀ s t : String,
      (a.form_data.getD {}).email = .str s → (b.form_data.getD {}).email = .str t →
      strToLower s = strToLower t → compareKeys so (keyOfD "email" a) (keyOfD "email" b) = 0) ∧
    (∀ a b : Submission, ∀ s t : String,
      (a.form_data.getD {}).gender = .str s → (b.form_data.getD {}).gender = .str t →
      strToLower s = strToLower t → compareKeys so (keyOfD "gender" a) (keyOfD "gender" b) = 0) ∧
    ∃ out, sortSubmissionsE sb so l = some out ∧ out.Perm l ∧
      (so = "asc" →
        out.Pairwise (fun a b => keyLt (keyOfD sb b) (keyOfD sb a) = false)) ∧
      (so = "desc" →
        out.Pairwise (fun a b => keyLt (keyOfD sb a) (keyOfD sb b) = false)) := by
  refine ⟨?_, ?_, ?_, ?_, ?_,
    sortPure sb so l, sortSubmissionsE_eq sb so l h, sortPure_perm sb so l, ?_, ?_⟩
  · intro s hp
    have hk : keyOfD "age" s = .int ((jsParseIntVal (s.form_data.getD {}).age).getD 0) := rfl
    rw [hk, hp]
    rfl
  · intro s n hp
    have hk : keyOfD "age" s = .int ((jsParseIntVal (s.form_data.getD {}).age).getD 0) := rfl
    rw [hk, hp]
    rfl
  · intro a b s t hva hvb hst
    have hka : keyOfD "name" a =
      .str (jsToLowerD (jsOr (a.form_data.getD {}).name (.str ""))) := rfl
    have hkb : keyOfD "name" b =
      .str (jsToLowerD (jsOr (b.form_data.getD {}).name (.str ""))) := rfl
    rw [hka, hkb, hva, hvb, jsToLowerD_or_str, jsToLowerD_or_str, hst]
    exact compareKeys_self so _
  · intro a b s t hva hvb hst
    have hka : keyOfD "email" a =
      .str (jsToLowerD (jsOr (a.form_data.getD {}).email (.str ""))) := rfl
    have hkb : keyOfD "email" b =
      .str (jsToLowerD (jsOr (b.form_data.getD {}).email (.str ""))) := rfl
    rw [hka, hkb, hva, hvb, jsToLowerD_or_str, jsToLowerD_or_str, hst]
    exact compareKeys_self so _
  · intro a b s t hva hvb hst
    have hka : keyOfD "gender" a =
      .str (jsToLowerD (jsOr (a.form_data.getD {}).gender (.str ""))) := rfl
    have hkb : keyOfD "gender" b =
      .str (jsToLowerD (jsOr (b.form_data.getD {}).gender (.str ""))) := rfl
    rw [hka, hkb, hva, hvb, jsToLowerD_or_str, jsToLowerD_or_str, hst]
    exact compareKeys_self so _
  · intro hso
    subst hso
    refine (sortPure_pairwise sb "asc" l).imp ?_
    intro a b hab
    have hi := (compareKeys_le_iff "asc" (keyOfD sb a) (keyOfD sb b)).mp hab
    rwa [if_pos rfl] at hi
  · intro hso
    subst hso
    refine (sortPure_pairwise sb "desc" l).imp ?_
    intro a b hab
    have hi := (compareKeys_le_iff "desc" (keyOfD sb a) (keyOfD sb b)).mp hab
    rwa [if_neg (by decide)] at hi

/-- C7 (witness): the theorem applied to a concrete list sorted by
age ascending. -/
theorem C7_witness :
    (∀ s ∈ [recT2, recT1], wellFormed s = true) ∧
    ((∀ s : Submission, jsParseIntVal (s.form_data.getD {}).age = none →
      keyOfD "age" s = .int 0) ∧
    (∀ s : Submission, ∀ n : Int, jsParseIntVal (s.form_data.getD {}).age = some n →
      keyOfD "age" s = .int n) ∧
    (∀ a b : Submission, ∀ s t : String,
      (a.form_data.getD {}).name = .str s → (b.form_data.getD {}).name = .str t →
      strToLower s = strToLower t → compareKeys "asc" (keyOfD "name" a) (keyOfD "name" b) = 0) ∧
    (∀ a b : Submission, ∀ s t : String,
      (a.form_data.getD {}).email = .str s → (b.form_data.getD {}).email = .str t →
      strToLower s = strToLower t → compareKeys "asc" (keyOfD "email" a) (keyOfD "email" b) = 0) ∧
    (∀ a b : Submission, ∀ s t : String,
      (a.form_data.getD {}).gender = .str s → (b.form_data.getD {}).gender = .str t →
      strToLower s = strToLower t → compareKeys "asc" (keyOfD "gender" a) (keyOfD "gender" b) = 0) ∧
    ∃ out, sortSubmissionsE "age" "asc" [recT2, recT1] = some out ∧
      out.Perm [recT2, recT1] ∧
      ("asc" = "asc" →
        out.Pairwise (fun a b => keyLt (keyOfD "age" b) (keyOfD "age" a) = false)) ∧
      ("asc" = "desc" →
        out.Pairwise (fun a b => keyLt (keyOfD "age" a) (keyOfD "age" b) = false))) :=
  ⟨by decide, C7_sort_coercions "age" "asc" [recT2, recT1] (by decide)⟩

/-- C8: pagination boundary behaviour over the filtered-and-sorted
result set of size `total`: the slice starting at offset `total - 1`
with limit at least 1 holds exactly one record, the slice starting at
offset `total` is empty, and the pipeline reports `total` (the
pre-pagination length) no matter which page is requested. -/
theorem C8_pagination_boundary (subs : List Submission) (q : String) (sb so : String)
    (h : ∀ s ∈ subs, wellFormed s = true) :
    ∃ matched sorted,
      applySearchE q subs = some matched ∧
      sortSubmissionsE sb so matched = some sorted ∧
      (∀ lim : Nat, 1 ≤ lim → 1 ≤ sorted.length →
        (jsSlice sorted (sorted.length - 1) (sorted.length - 1 + lim)).length = 1) ∧
      (∀ lim : Nat, jsSlice sorted sorted.length (sorted.length + lim) = []) ∧
      (∀ page pageSize : Nat,
        applyPipelineE subs q page pageSize sb so =
          some ⟨jsSlice sorted (page * pageSize) (page * pageSize + pageSize),
            sorted.length⟩) := by
  have hm := applySearchE_eq q subs h
  have hwf : ∀ s ∈ applySearch q subs, wellFormed s = true :=
    fun s hs => h s (applySearch_subset q subs s hs)
  have hsrt := sortSubmissionsE_eq sb so (applySearch q subs) hwf
  refine ⟨applySearch q subs, sortPure sb so (applySearch q subs), hm, hsrt, ?_, ?_, ?_⟩
  · intro lim hlim hlen
    unfold jsSlice
    rw [List.length_take, List.length_drop]
    omega
  · intro lim
    unfold jsSlice
    rw [List.drop_length, List.take_nil]
  · intro page pageSize
    unfold applyPipelineE
    rw [hm]
    simp only [Option.bind_eq_bind, Option.some_bind]
    rw [hsrt]
    rfl

/-- C8 (witness): the boundary theorem applied to a concrete record
list. -/
theorem C8_witness :
    (∀ s ∈ [recT1, recT2], wellFormed s = true) ∧
    ∃ matched sorted,
      applySearchE "" [recT1, recT2] = some matched ∧
      sortSubmissionsE "id" "asc" matched = some sorted ∧
      (∀ lim : Nat, 1 ≤ lim → 1 ≤ sorted.length →
        (jsSlice sorted (sorted.length - 1) (sorted.length - 1 + lim)).length = 1) ∧
      (∀ lim : Nat, jsSlice sorted sorted.length (sorted.length + lim) = []) ∧
      (∀ page pageSize : Nat,
        applyPipelineE [recT1, recT2] "" page pageSize "id" "asc" =
          some ⟨jsSlice sorted (page * pageSize) (page * pageSize + pageSize),
            sorted.length⟩) :=
  ⟨by decide, C8_pagination_boundary [recT1, recT2] "" "id" "asc" (by decide)⟩

theorem validateField_required (emails : List JsVal) (f : String) (cfg : FieldConfig)
    (v : Option String) (hreq : cfg.required = true) (hempty : isEmptyVal v = true) :
    validateField emails f cfg v = [f ++ " is required"] := by
  unfold validateField
  rw [if_pos hempty, if_pos (by simp [hreq, hempty])]

theorem validateForm_lookup (emails : List JsVal) (formData : List (String × String))
    (f : String) (cfg : FieldConfig) :
    ∀ schema : List (String × FieldConfig), (f, cfg) ∈ schema →
    (schema.map Prod.fst).Nodup →
    validateField emails f cfg (List.lookup f formData) ≠ [] →
    List.lookup f (validateForm emails schema formData) =
      some (validateField emails f cfg (List.lookup f formData)) := by
  intro schema
  induction schema with
  | nil => intro hmem _ _; cases hmem
  | cons hd tl ih =>
    obtain ⟨k, cfg2⟩ := hd
    intro hmem hnd hne
    have hnd2 : (k :: tl.map Prod.fst).Nodup := by simpa using hnd
    rcases List.mem_cons.mp hmem with heq | hmem2
    · rw [show k = (f, cfg).1 from congrArg Prod.fst heq.symm,
        show cfg2 = (f, cfg).2 from congrArg Prod.snd heq.symm]
      unfold validateForm
      simp only [List.map_cons, List.filter_cons]
      rw [if_pos]
      · simp [List.lookup]
      · cases hv : validateField emails f cfg (List.lookup f formData) with
        | nil => exact absurd hv hne
        | cons a as => simp

    · have hf : ¬ k = f := by
        intro he
        exact (List.nodup_cons.mp hnd2).1
          (by rw [he]; exact List.mem_map.mpr ⟨(f, cfg), hmem2, rfl⟩)
      have hbeq : (f == k) = false := beq_eq_false_iff_ne.mpr (fun he => hf he.symm)
      have htl := ih hmem2 (List.nodup_cons.mp hnd2).2 hne
      unfold validateForm
      simp only [List.map_cons, List.filter_cons]
      by_cases hp : (validateField emails k cfg2 (List.lookup k formData)).isEmpty
      · rw [if_neg (by simp [hp])]
        exact htl
      · rw [if_pos (by simp [hp])]
        simp only [List.lookup, hbeq]
        exact htl

/-- A schema with one required string field, and a component state with
empty form data and a previously displayed success message. -/
def schemaNameReq : List (String × FieldConfig) := [("name", { type := "string", required := true })]

def st9 : FormState := ⟨[], [], false, "done", "", []⟩

/-- C9: the claim as stated fails on the code: with a required field
empty, `handleSubmit` indeed issues no request, but it does NOT leave
all state unchanged - it clears the submit message (here "done" becomes
"") and stores the new validation errors via `setErrors`. -/
theorem C9_counterexample :
    (handleSubmit schemaNameReq st9).2 = none ∧
    (handleSubmit schemaNameReq st9).1 ≠ st9 ∧
    (handleSubmit schemaNameReq st9).1.errors = [("name", ["name is required"])] ∧
    (handleSubmit schemaNameReq st9).1.submitMessage = "" ∧
    st9.submitMessage = "done" := by decide

/-- C9 (amended): if any required schema field has an empty value
(empty string, null or undefined), `validateForm` records the error
`field is required` for that field and the error map is non-empty (the
source's boolean result is false), and `handleSubmit` issues no submit
request; the form data, loading flag and loaded email list are left
unchanged, while the submit messages are cleared and the errors state
is replaced by the computed error map. -/
theorem C9_amended (schema : List (String × FieldConfig)) (st : FormState)
    (f : String) (cfg : FieldConfig)
    (hmem : (f, cfg) ∈ schema) (hreq : cfg.required = true)
    (hempty : isEmptyVal (List.lookup f st.formData) = true)
    (hnd : (schema.map Prod.fst).Nodup) :
    (handleSubmit schema st).2 = none ∧
    (handleSubmit schema st).1.formData = st.formData ∧
    (handleSubmit schema st).1.loading = st.loading ∧
    (handleSubmit schema st).1.existingEmails = st.existingEmails ∧
    (handleSubmit schema st).1.submitMessage = "" ∧
    (handleSubmit schema st).1.submitError = "" ∧
    (handleSubmit schema st).1.errors = validateForm st.existingEmails schema st.formData ∧
    validateForm st.existingEmails schema st.formData ≠ [] ∧
    ∃ errs, List.lookup f (validateForm st.existingEmails schema st.formData) = some errs ∧
      (f ++ " is required") ∈ errs := by
  have hval : validateField st.existingEmails f cfg (List.lookup f st.formData) =
      [f ++ " is required"] :=
    validateField_required st.existingEmails f cfg (List.lookup f st.formData) hreq hempty
  have hlook := validateForm_lookup st.existingEmails st.formData f cfg schema hmem hnd
    (by rw [hval]; simp)
  have hnil : validateForm st.existingEmails schema st.formData ≠ [] := by
    intro hz
    rw [hz] at hlook
    simp [List.lookup] at hlook
  have hcond : (validateForm st.existingEmails schema st.formData).isEmpty = false := by
    cases hz : validateForm st.existingEmails schema st.formData with
    | nil => exact absurd hz hnil
    | cons a as => rfl
  unfold handleSubmit
  rw [if_neg (by simp [hcond])]
  exact ⟨rfl, rfl, rfl, rfl, rfl, rfl, rfl, hnil,
    ⟨validateField st.existingEmails f cfg (List.lookup f st.formData), hlook,
      by rw [hval]; exact List.mem_singleton.mpr rfl⟩⟩

/-- C9 (witness): the amended theorem applied to the concrete schema
and state. -/
theorem C9_witness :
    (("name", ({ type := "string", required := true } : FieldConfig)) ∈ schemaNameReq ∧
      ({ type := "string", required := true } : FieldConfig).required = true ∧
      isEmptyVal (List.lookup "name" st9.formData) = true ∧
      (schemaNameReq.map Prod.fst).Nodup) ∧
    ((handleSubmit schemaNameReq st9).2 = none ∧
      (handleSubmit schemaNameReq st9).1.formData = st9.formData ∧
      (handleSubmit schemaNameReq st9).1.loading = st9.loading ∧
      (handleSubmit schemaNameReq st9).1.existingEmails = st9.existingEmails ∧
      (handleSubmit schemaNameReq st9).1.submitMessage = "" ∧
      (handleSubmit schemaNameReq st9).1.submitError = "" ∧
      (handleSubmit schemaNameReq st9).1.errors =
        validateForm st9.existingEmails schemaNameReq st9.formData ∧
      validateForm st9.existingEmails schemaNameReq st9.formData ≠ [] ∧
      ∃ errs, List.lookup "name" (validateForm st9.existingEmails schemaNameReq st9.formData) =
        some errs ∧ ("name" ++ " is required") ∈ errs) :=
  ⟨⟨by decide, by decide, by decide, by simp [schemaNameReq]⟩,
    C9_amended schemaNameReq st9 "name" { type := "string", required := true }
      (by decide) (by decide) (by decide) (by simp [schemaNameReq])⟩

/-- C10: the totality clause of the claim fails on the code: a record
whose `name` is the number 5 is a record shape that makes the pipeline
throw - `5..toLowerCase()` is a TypeError - so the search filter (for
a non-empty query) and the whole pipeline abort instead of returning. -/
theorem C10_counterexample :
    applySearchE "x" [recNumName] = none ∧
    applyPipelineE [recNumName] "x" 0 10 "id" "asc" = none ∧
    sortSubmissionsE "name" "asc" [recNumName, recBob1] = none := by decide

theorem keyOfE_formdata_none (sb : String) (i : Nat) (t : Int) :
    keyOfE sb ⟨i, t, none⟩ = keyOfE sb ⟨i, t, some {}⟩ := by
  by_cases h1 : sb = "id"
  · subst h1; rfl
  by_cases h2 : sb = "submitted_at"
  · subst h2; rfl
  by_cases h3 : sb = "name"
  · subst h3; rfl
  by_cases h4 : sb = "email"
  · subst h4; rfl
  by_cases h5 : sb = "age"
  · subst h5; rfl
  by_cases h6 : sb = "gender"
  · subst h6; rfl
  simp [keyOfE, h1, h2, h3, h4, h5, h6]

/-- C10 (amended): the search/sort pipeline is total over malformed
records PROVIDED the name, email and gender values are strings or
absent: a missing `form_data` behaves as an empty object; a record all
of whose fields are falsy can only match on its id; in sorting a falsy
name (resp. email, gender) yields the empty-string key and an
unparsable age the key 0; and over well-formed records the whole
pipeline returns a result.  (A numeric name, email or gender, however,
makes the pipeline throw - see the counterexample.) -/
theorem C10_amended :
    (∀ q : String, ∀ i : Nat, ∀ t : Int,
      matchesQueryE q ⟨i, t, none⟩ = matchesQueryE q ⟨i, t, some {}⟩) ∧
    (∀ sb : String, ∀ i : Nat, ∀ t : Int,
      keyOfE sb ⟨i, t, none⟩ = keyOfE sb ⟨i, t, some {}⟩) ∧
    (∀ q : String, ∀ i : Nat, ∀ t : Int, ∀ fd : FormData,
      truthy fd.name = false → truthy fd.email = false → truthy fd.age = false →
      truthy fd.gender = false →
      matchesQueryE q ⟨i, t, some fd⟩ = some (jsIncludes (toString i) q)) ∧
    (∀ s : Submission, truthy (s.form_data.getD {}).name = false →
      keyOfE "name" s = some (.str "")) ∧
    (∀ s : Submission, truthy (s.form_data.getD {}).email = false →
      keyOfE "email" s = some (.str "")) ∧
    (∀ s : Submission, truthy (s.form_data.getD {}).gender = false →
      keyOfE "gender" s = some (.str "")) ∧
    (∀ s : Submission, jsParseIntVal (s.form_data.getD {}).age = none →
      keyOfE "age" s = some (.int 0)) ∧
    (∀ subs : List Submission, ∀ q : String, ∀ page pageSize : Nat, ∀ sb so : String,
      (∀ s ∈ subs, wellFormed s = true) →
      ∃ res, applyPipelineE subs q page pageSize sb so = some res) := by
  refine ⟨fun q i t => rfl, keyOfE_formdata_none, ?_, ?_, ?_, ?_, ?_, ?_⟩
  · intro q i t fd hn he ha hg
    unfold matchesQueryE strClauseE
    simp only [Option.getD_some, hn, he, ha, hg, Bool.false_and, if_neg Bool.false_ne_true]
    rfl
  · intro s hn
    have hk : keyOfE "name" s =
      (jsToLowerE (jsOr (s.form_data.getD {}).name (.str ""))).map SortKey.str := rfl
    rw [hk]
    unfold jsOr
    rw [if_neg (by simp [hn])]
    rfl
  · intro s he
    have hk : keyOfE "email" s =
      (jsToLowerE (jsOr (s.form_data.getD {}).email (.str ""))).map SortKey.str := rfl
    rw [hk]
    unfold jsOr
    rw [if_neg (by simp [he])]
    rfl
  · intro s hg
    have hk : keyOfE "gender" s =
      (jsToLowerE (jsOr (s.form_data.getD {}).gender (.str ""))).map SortKey.str := rfl
    rw [hk]
    unfold jsOr
    rw [if_neg (by simp [hg])]
    rfl
  · intro s ha
    have hk : keyOfE "age" s =
      some (.int ((jsParseIntVal (s.form_data.getD {}).age).getD 0)) := rfl
    rw [hk, ha]
    rfl
  · intro subs q page pageSize sb so h
    exact ⟨applyPipeline subs q page pageSize sb so,
      applyPipelineE_eq subs q page pageSize sb so h⟩

/-- Records exercising the default-handling clauses. -/
def fdFalsy : FormData := { name := .str "", email := .undef, age := .num 0, gender := .undef }

def recAgeBad : Submission := ⟨1, 0, some { age := .str "abc" }⟩

/-- C10 (witness): the amended theorem's clauses applied to concrete
records: a record with no `form_data`, a record with all-falsy fields
(matching only on its id), and a concrete well-formed pipeline run. -/
theorem C10_witness :
    matchesQueryE "7" ⟨7, 0, none⟩ = matchesQueryE "7" ⟨7, 0, some {}⟩ ∧
    (truthy (JsVal.str "") = false ∧ truthy JsVal.undef = false ∧
      truthy (JsVal.num 0) = false ∧
      matchesQueryE "7" ⟨7, 0, some fdFalsy⟩ = some (jsIncludes (toString 7) "7")) ∧
    (jsParseIntVal (JsVal.str "abc") = none ∧ keyOfE "age" recAgeBad = some (.int 0)) ∧
    ((∀ s ∈ [recT1], wellFormed s = true) ∧
      ∃ res, applyPipelineE [recT1] "a" 0 10 "name" "asc" = some res) :=
  ⟨C10_amended.1 "7" 7 0,
   ⟨by decide, by decide, by decide,
    C10_amended.2.2.1 "7" 7 0 fdFalsy (by decide) (by decide) (by decide) (by decide)⟩,
   ⟨by decide, C10_amended.2.2.2.2.2.2.1 recAgeBad (by decide)⟩,
   ⟨by decide, C10_amended.2.2.2.2.2.2.2 [recT1] "a" 0 10 "name" "asc" (by decide)⟩⟩
